import Mathlib

/-!
Verification of the git-backed TUF updater handler (`taf/updater/handlers.py`,
class `GitUpdater`) against its specification.

The handler keeps an ordered list of commits of the authentication repository
(`self.commits`), a cursor into that list (`self.current_commit_index`), and a
bare validation clone of the remote repository.  The definitions below are a
shallow embedding of the methods of `GitUpdater`; the git helper class
`AuthenticationRepo` (file `taf/updater/git.py`) is not part of the sources,
so its operations are modelled from the specification where noted.
-/

/-- Error kinds.  `UpdateFailed` is the exception raised by `handlers.py`
(imported from `taf.updater.exceptions`); `GitError`, `NotFastForward` and
`ForcePushDetected` are the git-backend and commit-iterator error kinds named
by the specification (sections 4.1, 4.3 and 7). -/
inductive UpdaterError where
  | UpdateFailed (msg : String)
  | GitError (msg : String)
  | NotFastForward
  | ForcePushDetected
deriving DecidableEq, Repr

/-- Python list indexing `l[i]`: a negative index counts from the end of the
list (`l[i]` is `l[len(l) + i]`), and an index out of range raises
`IndexError`, modelled as `none`. -/
def pyIndex {α : Type} (l : List α) (i : Int) : Option α :=
  let j : Int := if i < 0 then (l.length : Int) + i else i
  if 0 ≤ j then l[j.toNat]? else none

/-- The mutable state of a `GitUpdater` instance that the embedded methods
read: `commits` and `current_commit_index` are the attributes set by
`_init_commits`; `users_head_sha` is the head commit of the user's repository
(or `none` when the user's repository does not exist). -/
structure UpdaterState where
  commits : List String
  users_head_sha : Option String
  current_commit_index : Nat
deriving DecidableEq, Repr

/-- Embedding of the `current_commit` property:
`self.commits[self.current_commit_index]` with Python indexing. -/
def current_commit (s : UpdaterState) : Option String :=
  pyIndex s.commits (s.current_commit_index : Int)

/-- Embedding of the `previous_commit` property:
`self.commits[self.current_commit_index - 1]` with Python indexing (for index
`0` this is `self.commits[-1]`, the last element). -/
def previous_commit (s : UpdaterState) : Option String :=
  pyIndex s.commits ((s.current_commit_index : Int) - 1)

/-- The validation clone (bare clone of the remote authentication
repository): the commit history of the expected branch in parent-to-child
order, the file contents at each commit, and the date of each commit.
`get_file` and `get_commits_date` are the operations of `AuthenticationRepo`
that `handlers.py` calls (spec section 4.1: `read_file` returns bytes or
`NotFound`; `commit_date` returns unix seconds). -/
structure ValidationRepo where
  history : List String
  get_file : String → String → Option String
  get_commits_date : String → Int

/-- Commits strictly after the given commit in a parent-to-child history. -/
def afterCommit : List String → String → List String
  | [], _ => []
  | c :: rest, sha => if c = sha then rest else afterCommit rest sha

/-- Modelled from the spec: `all_commits_since_commit` belongs to
`taf/updater/git.py`, which is not among the sources.  Spec section 4.1
(`commits_between`): returns the commits reachable from the branch tip that
are not reachable from `from_sha`, in parent-to-child order; if `from_sha` is
`None`, returns the full history of the branch; fails with `NotFastForward`
if `from_sha` is not an ancestor of the branch tip. -/
def all_commits_since_commit (v : ValidationRepo) :
    Option String → Except UpdaterError (List String)
  | none => .ok v.history
  | some sha =>
      if sha ∈ v.history then .ok (afterCommit v.history sha)
      else .error UpdaterError.NotFastForward

/-- The user's authentication repository as `handlers.py` observes it:
whether the directory is a git repository, and its head commit on the
checked-out branch. -/
structure UsersRepo where
  is_git_repository : Bool
  head_commit_sha : String

/-- Embedding of `GitUpdater._init_commits`: if the user's repository is a
git repository, its head is read and all newer commits of the validation
clone are listed; the head is then inserted at the front of that list.
Otherwise the full history is used and nothing is prepended.  The cursor
starts at `0`.  The method performs no ancestry or force-push check of its
own (the source carries a TODO comment about force-push detection). -/
def init_commits (v : ValidationRepo) (u : UsersRepo) :
    Except UpdaterError UpdaterState :=
  let users_head_sha := if u.is_git_repository then some u.head_commit_sha else none
  match all_commits_since_commit v users_head_sha with
  | .error e => .error e
  | .ok cs =>
      let commits := match users_head_sha with
        | some h => h :: cs
        | none => cs
      .ok { commits := commits, users_head_sha := users_head_sha,
            current_commit_index := 0 }

/-- Embedding of `GitUpdater.get_mirrors`: returns the one-element list
holding the current commit, for every file type and file path. -/
def get_mirrors (s : UpdaterState) (file_type filepath : String) :
    Option (List String) :=
  (current_commit s).map (fun c => [c])

/-- Embedding of `GitUpdater.get_metadata_file` composed with `_get_file`:
reads `metadata/<filename>` at the given commit from the validation clone;
`none` when the file is absent there. -/
def get_metadata_file (v : ValidationRepo) (file_mirror filename : String) :
    Option String :=
  v.get_file file_mirror ("metadata/" ++ filename)

/-- Embedding of `GitUpdater.get_target_file` composed with `_get_file`:
reads `targets/<filename>` at the given commit from the validation clone. -/
def get_target_file (v : ValidationRepo) (file_mirror filename : String) :
    Option String :=
  v.get_file file_mirror ("targets/" ++ filename)

/-- Embedding of `GitUpdater.earliest_valid_expiration_time`: returns
`int(self.validation_auth_repo.get_commits_date(self.current_commit))`.
The `metadata_rolename` argument is not used by the body. -/
def earliest_valid_expiration_time (v : ValidationRepo) (s : UpdaterState)
    (metadata_rolename : String) : Option Int :=
  (current_commit s).map v.get_commits_date

/-- The expiration bound as the specification words it (spec section 4.5):
a role expires iff its expiration is below the maximum of the commit date
and the greatest expiration previously seen for that role. -/
def spec_expiration_bound (commit_date_ci previous_expiration_seen : Int) : Int :=
  max commit_date_ci previous_expiration_seen

/-- Embedding of `GitUpdater.ensure_not_changed`: reads the metadata file at
the current and at the previous commit and raises `UpdateFailed` when the two
contents differ.  The method body contains only reads and no assignment, so
the embedding is a pure function of the state; a missing file makes the
underlying `get_file` fail, modelled as `GitError`. -/
def ensure_not_changed (v : ValidationRepo) (s : UpdaterState)
    (metadata_filename : String) : Except UpdaterError Unit :=
  match current_commit s, previous_commit s with
  | some cur, some prev =>
      match get_metadata_file v cur metadata_filename,
            get_metadata_file v prev metadata_filename with
      | some current_file, some previous_file =>
          if current_file ≠ previous_file then
            .error (UpdaterError.UpdateFailed
              ("Metadata file " ++ metadata_filename ++
               " should be the same at revisions " ++ prev ++ " and " ++ cur ++
               ", but is not"))
          else .ok ()
      | _, _ => .error (UpdaterError.GitError ("file not found"))
  | _, _ => .error (UpdaterError.GitError ("no such commit"))

/-- Embedding of `GitUpdater.update_done`: increments the commit cursor and
reports whether it has reached the end of the commit list. -/
def update_done (s : UpdaterState) : UpdaterState × Bool :=
  let s' : UpdaterState :=
    { s with current_commit_index := s.current_commit_index + 1 }
  (s', s'.current_commit_index == s.commits.length)

/-- What `GitUpdater.__init__` observes about the local destination
directory: whether the path exists (`os.path.exists`), the user's repository
handle, and the directory listing (`os.listdir`). -/
structure InitEnv where
  repository_directory_exists : Bool
  users_repo : UsersRepo
  directory_listing : List String

/-- Embedding of `GitUpdater.__init__` after the validation clone has been
made in a temporary directory (not at the destination path): if the
destination exists, is not a git repository and is non-empty, `UpdateFailed`
is raised; otherwise `_init_commits` runs and then `_init_metadata` creates
the `metadata`, `metadata/current` and `metadata/previous` directories at the
destination path.  The returned list is the set of directories created at
that path; an error result means none were created. -/
def updater_init (v : ValidationRepo) (env : InitEnv)
    (repository_directory : String) :
    Except UpdaterError (UpdaterState × List String) :=
  if env.repository_directory_exists && !env.users_repo.is_git_repository &&
      !env.directory_listing.isEmpty then
    .error (UpdaterError.UpdateFailed
      (repository_directory ++ " is not a git repository and is not empty"))
  else
    match init_commits v env.users_repo with
    | .error e => .error e
    | .ok s =>
        .ok (s, [repository_directory ++ "/metadata",
                 repository_directory ++ "/metadata/current",
                 repository_directory ++ "/metadata/previous"])

/-- A directory on disk: its path and whether it is empty. -/
structure FsDir where
  path : String
  is_empty : Bool
deriving DecidableEq, Repr

/-- Whether a path lies at or below a root path. -/
def isUnder (p root : String) : Bool :=
  p == root || (root ++ "/").data.isPrefixOf p.data

/-- `shutil.rmtree`: removes the directory and everything below it. -/
def rmtree (fs : List FsDir) (root : String) : List FsDir :=
  fs.filter (fun d => ! isUnder d.path root)

/-- The POSIX `rmdir` utility applied to one operand: removes the directory
only when it exists and is empty; a non-empty directory is left in place
(the call fails). -/
def posix_rmdir (fs : List FsDir) (p : String) : List FsDir :=
  fs.filter (fun d => !(d.path == p && d.is_empty))

/-- Embedding of `GitUpdater.cleanup` as it executes on a POSIX system:
`shutil.rmtree` on the current and previous metadata directories, then
`os.system` runs the shell command line `rmdir /S /Q "<path>"`, which invokes
the POSIX `rmdir` utility with the three operands `/S`, `/Q` and the
validation clone path.  (`/S` and `/Q` are flags of the Windows `rmdir`
command; POSIX `rmdir` treats them as directory operands.) -/
def cleanup (fs : List FsDir)
    (current_path previous_path validation_repo_path : String) : List FsDir :=
  let fs1 := rmtree fs current_path
  let fs2 := rmtree fs1 previous_path
  let fs3 := posix_rmdir fs2 ("/S")
  let fs4 := posix_rmdir fs3 ("/Q")
  posix_rmdir fs4 validation_repo_path

lemma pyIndex_natCast {α : Type} (l : List α) (n : Nat) :
    pyIndex l (n : Int) = l[n]? := by
  simp only [pyIndex]
  rw [if_neg (by omega : ¬ ((n : Int) < 0))]
  rw [if_pos (by omega : (0 : Int) ≤ (n : Int))]
  simp

lemma pyIndex_neg_one {α : Type} (l : List α) : pyIndex l (-1) = l.getLast? := by
  rcases l with _ | ⟨a, t⟩
  · rfl
  · simp only [pyIndex]
    rw [if_pos (by omega : (-1 : Int) < 0)]
    have h1 : (((a :: t).length : Int) + (-1)) = ((t.length : Nat) : Int) := by
      simp [List.length_cons]
    rw [h1, if_pos (by omega : (0 : Int) ≤ ((t.length : Nat) : Int))]
    simp [List.getLast?_eq_getElem?]

lemma afterCommit_split {l : List String} {h : String} (hm : h ∈ l) :
    ∃ pre, l = pre ++ h :: afterCommit l h := by
  induction l with
  | nil => cases hm
  | cons c rest ih =>
      by_cases hc : c = h
      · subst hc
        exact ⟨[], by simp [afterCommit]⟩
      · have hm' : h ∈ rest := by
          rcases List.mem_cons.mp hm with h1 | h1
          · exact absurd h1.symm hc
          · exact h1
        obtain ⟨pre, hp⟩ := ih hm'
        refine ⟨c :: pre, ?_⟩
        simp only [afterCommit, if_neg hc, List.cons_append, List.cons.injEq]
        exact ⟨trivial, hp⟩

lemma afterCommit_getLast : ∀ (l : List String) (hne : l ≠ []), l.Nodup →
    afterCommit l (l.getLast hne) = []
  | [c], _, _ => by simp [afterCommit]
  | c :: d :: t, hne, hnd => by
      have hne' : (d :: t) ≠ ([] : List String) := by simp
      have hlast : (c :: d :: t).getLast hne = (d :: t).getLast hne' :=
        List.getLast_cons hne'
      have hcne : c ≠ (d :: t).getLast hne' := by
        have hmem : (d :: t).getLast hne' ∈ d :: t := List.getLast_mem hne'
        have hnotin : c ∉ d :: t := (List.nodup_cons.mp hnd).1
        intro hEq
        exact hnotin (hEq ▸ hmem)
      rw [hlast]
      simp only [afterCommit, if_neg hcne]
      exact afterCommit_getLast (d :: t) hne' (List.nodup_cons.mp hnd).2

lemma getLast_ne_head {a : String} {t : List String} (hne : t ≠ [])
    (hnd : (a :: t).Nodup) :
    (a :: t).getLast (List.cons_ne_nil a t) ≠ a := by
  rw [List.getLast_cons hne]
  have hmem := List.getLast_mem hne
  have hnotin : a ∉ t := (List.nodup_cons.mp hnd).1
  intro hEq
  exact hnotin (hEq ▸ hmem)

/-- A concrete validation clone used to instantiate the theorems: two commits
`a` then `b`, every file present with commit-dependent content, commit dates
200 for `a` and 100 for `b`. -/
def sampleRepo : ValidationRepo where
  history := ["a", "b"]
  get_file := fun c p => some (c ++ ":" ++ p)
  get_commits_date := fun c => if c == "b" then 100 else 200

/-- C3: for every file type and file path, `get_mirrors` returns exactly the
one-element list holding the current commit, and each metadata or target
fetch reads the bytes stored at that single commit (or fails when the file is
absent there). -/
theorem C3_get_mirrors_single (v : ValidationRepo) (s : UpdaterState)
    (file_type filepath : String) (c : String)
    (h : current_commit s = some c) :
    get_mirrors s file_type filepath = some [c] ∧
    (∀ filename, get_metadata_file v c filename =
        v.get_file c ("metadata/" ++ filename)) ∧
    (∀ filename, get_target_file v c filename =
        v.get_file c ("targets/" ++ filename)) := by
  refine ⟨?_, fun _ => rfl, fun _ => rfl⟩
  simp [get_mirrors, h]

/-- Witness for C3 at a concrete input. -/
theorem C3_witness :
    current_commit ⟨["a", "b"], some ("a"), 0⟩ = some ("a") ∧
    get_mirrors ⟨["a", "b"], some ("a"), 0⟩ ("meta") ("root.json") =
      some [("a")] := by
  refine ⟨by rfl, ?_⟩
  exact (C3_get_mirrors_single sampleRepo ⟨["a", "b"], some ("a"), 0⟩
    ("meta") ("root.json") ("a") (by rfl)).1

/-- C5: the earliest valid expiration time reported for the current commit is
that commit's date, for every role name; hence metadata whose expiration lies
at or after the commit date is not flagged by this bound even when the
expiration precedes the wall-clock time `now` of the update. -/
theorem C5_expiration_is_commit_date (v : ValidationRepo) (s : UpdaterState)
    (role c : String) (h : current_commit s = some c) :
    earliest_valid_expiration_time v s role = some (v.get_commits_date c) ∧
    (∀ now expires : Int, v.get_commits_date c ≤ expires → expires < now →
      ¬ expires < v.get_commits_date c) := by
  refine ⟨by simp [earliest_valid_expiration_time, h], ?_⟩
  intro now expires h1 _
  omega

/-- Witness for C5 at a concrete input. -/
theorem C5_witness :
    current_commit ⟨["a", "b"], some ("a"), 1⟩ = some ("b") ∧
    earliest_valid_expiration_time sampleRepo ⟨["a", "b"], some ("a"), 1⟩
      ("timestamp") = some 100 := by
  refine ⟨by rfl, ?_⟩
  have h := (C5_expiration_is_commit_date sampleRepo ⟨["a", "b"], some ("a"), 1⟩
    ("timestamp") ("b") (by rfl)).1
  simpa [sampleRepo] using h

/-- C9: when the commit cursor is `0`, reading `previous_commit` does not
fail: Python's negative indexing makes it return the last commit of the
sequence, which (when the sequence has at least two distinct commits) is not
the current commit, let alone its predecessor. -/
theorem C9_previous_commit_at_zero (s : UpdaterState) (hne : s.commits ≠ [])
    (h0 : s.current_commit_index = 0) :
    previous_commit s = some (s.commits.getLast hne) ∧
    (2 ≤ s.commits.length → s.commits.Nodup →
      previous_commit s ≠ current_commit s) := by
  obtain ⟨l, ush, i⟩ := s
  simp only at h0 hne
  subst h0
  have hprev : previous_commit ⟨l, ush, 0⟩ = l.getLast? := by
    unfold previous_commit
    have : (((0 : Nat) : Int) - 1) = (-1 : Int) := by omega
    rw [this]
    exact pyIndex_neg_one l
  constructor
  · rw [hprev]
    exact List.getLast?_eq_getLast l hne
  · intro hlen hnd
    rcases l with _ | ⟨a, t⟩
    · exact absurd rfl hne
    · have htne : t ≠ [] := by
        rcases t with _ | _
        · simp at hlen
        · simp
      have hcur : current_commit ⟨a :: t, ush, 0⟩ = some a := by
        unfold current_commit
        rw [pyIndex_natCast]
        simp
      rw [hprev, hcur, List.getLast?_eq_getLast (a :: t) hne]
      intro hEq
      exact getLast_ne_head htne hnd (Option.some.injEq _ _ ▸ hEq)

/-- Witness for C9 at a concrete input. -/
theorem C9_witness :
    previous_commit ⟨["a", "b"], some ("a"), 0⟩ = some ("b") ∧
    previous_commit ⟨["a", "b"], some ("a"), 0⟩ ≠
      current_commit ⟨["a", "b"], some ("a"), 0⟩ := by
  have h := C9_previous_commit_at_zero ⟨["a", "b"], some ("a"), 0⟩
    (by simp) (by rfl)
  refine ⟨?_, h.2 (by simp) (by simp)⟩
  simpa using h.1

/-- C10: assuming the current and previous commits resolve and the metadata
file exists at both, `ensure_not_changed` raises `UpdateFailed` exactly when
the file's content at the current commit differs from its content at the
previous commit, and succeeds exactly when the contents agree.  The source
method body contains only reads, so its embedding is a pure function of the
state: the commit cursor and all repository state are unchanged by it. -/
theorem C10_ensure_not_changed_iff (v : ValidationRepo) (s : UpdaterState)
    (f cur prev cf pf : String)
    (hc : current_commit s = some cur) (hp : previous_commit s = some prev)
    (hcf : v.get_file cur ("metadata/" ++ f) = some cf)
    (hpf : v.get_file prev ("metadata/" ++ f) = some pf) :
    ((∃ m, ensure_not_changed v s f =
        .error (UpdaterError.UpdateFailed m)) ↔ cf ≠ pf) ∧
    (cf = pf → ensure_not_changed v s f = .ok ()) := by
  have hred : ensure_not_changed v s f =
      if cf ≠ pf then
        .error (UpdaterError.UpdateFailed
          ("Metadata file " ++ f ++ " should be the same at revisions " ++
           prev ++ " and " ++ cur ++ ", but is not"))
      else .ok () := by
    unfold ensure_not_changed
    simp only [hc, hp, get_metadata_file, hcf, hpf]
  by_cases hcp : cf = pf <;> simp [hred, hcp]

/-- Witness for C10 at a concrete input. -/
theorem C10_witness :
    current_commit ⟨["a", "b"], some ("a"), 1⟩ = some ("b") ∧
    previous_commit ⟨["a", "b"], some ("a"), 1⟩ = some ("a") ∧
    (∃ m, ensure_not_changed sampleRepo ⟨["a", "b"], some ("a"), 1⟩
      ("root.json") = .error (UpdaterError.UpdateFailed m)) := by
  refine ⟨by rfl, by rfl, ?_⟩
  exact ((C10_ensure_not_changed_iff sampleRepo ⟨["a", "b"], some ("a"), 1⟩
    ("root.json") ("b") ("a") ("b:metadata/root.json") ("a:metadata/root.json")
    (by rfl) (by rfl) (by rfl) (by rfl)).1).mpr (by decide)

/-- C4: when the user's repository exists with head `h` present in the remote
history, the commit sequence is `h` followed by exactly the commits after `h`
in parent-to-child order (the remote history splits as a prefix ending in `h`
followed by that tail); when the user's repository does not exist, the commit
sequence is the entire remote history with nothing prepended. -/
theorem C4_commit_sequence (v : ValidationRepo) (h : String)
    (hmem : h ∈ v.history) (u : UsersRepo) :
    (u.is_git_repository = true → u.head_commit_sha = h →
      init_commits v u =
        .ok ⟨h :: afterCommit v.history h, some h, 0⟩ ∧
      ∃ pre, v.history = pre ++ h :: afterCommit v.history h) ∧
    (u.is_git_repository = false →
      init_commits v u = .ok ⟨v.history, none, 0⟩) := by
  constructor
  · intro hgit hhead
    refine ⟨?_, afterCommit_split hmem⟩
    unfold init_commits all_commits_since_commit
    rw [hgit, hhead]
    simp [hmem]
  · intro hgit
    unfold init_commits all_commits_since_commit
    rw [hgit]
    simp

/-- Witness for C4 at a concrete input. -/
theorem C4_witness :
    init_commits sampleRepo ⟨true, ("a")⟩ =
      .ok ⟨["a", "b"], some ("a"), 0⟩ ∧
    init_commits sampleRepo ⟨false, ("a")⟩ =
      .ok ⟨["a", "b"], none, 0⟩ := by
  have h := C4_commit_sequence sampleRepo ("a") (by simp [sampleRepo])
  refine ⟨?_, (h ⟨false, ("a")⟩).2 rfl⟩
  have h1 := ((h ⟨true, ("a")⟩).1 rfl rfl).1
  simpa [sampleRepo, afterCommit] using h1

/-- C8: immediately after a successful update the user's head is the last
commit of the remote history, so a second run builds a commit sequence with
no new commits (just the head itself), `update_done` returns `true` after
that single commit is consumed, and the last validated commit of the second
run equals the existing head, so fast-forwarding to it changes no ref. -/
theorem C8_second_update_noop (v : ValidationRepo) (hne : v.history ≠ [])
    (hnd : v.history.Nodup) :
    init_commits v ⟨true, v.history.getLast hne⟩ =
      .ok ⟨[v.history.getLast hne], some (v.history.getLast hne), 0⟩ ∧
    (update_done ⟨[v.history.getLast hne],
      some (v.history.getLast hne), 0⟩).2 = true ∧
    ([v.history.getLast hne]).getLast? = some (v.history.getLast hne) := by
  refine ⟨?_, by rfl, by rfl⟩
  unfold init_commits all_commits_since_commit
  simp [List.getLast_mem hne, afterCommit_getLast v.history hne hnd]

/-- Witness for C8 at a concrete input. -/
theorem C8_witness :
    init_commits sampleRepo ⟨true, ("b")⟩ =
      .ok ⟨[("b")], some ("b"), 0⟩ ∧
    (update_done ⟨[("b")], some ("b"), 0⟩).2 = true := by
  have h := C8_second_update_noop sampleRepo (by simp [sampleRepo])
    (by simp [sampleRepo])
  exact ⟨h.1, h.2.1⟩

/-- C7: if the local destination directory exists, is not a git repository
and is non-empty, initializing the updater raises `UpdateFailed`; the error
result carries no state and no created-directory list, so neither commit
validation nor any mutation at the destination path takes place. -/
theorem C7_nonempty_non_git_fails (v : ValidationRepo) (env : InitEnv)
    (repository_directory : String)
    (hex : env.repository_directory_exists = true)
    (hgit : env.users_repo.is_git_repository = false)
    (hls : env.directory_listing ≠ []) :
    updater_init v env repository_directory =
      .error (UpdaterError.UpdateFailed
        (repository_directory ++ " is not a git repository and is not empty")) := by
  unfold updater_init
  rw [if_pos]
  rw [hex, hgit]
  simp [hls]

/-- Witness for C7 at a concrete input. -/
theorem C7_witness :
    updater_init sampleRepo ⟨true, ⟨false, ("a")⟩, [("stray.txt")]⟩ ("/repo") =
      .error (UpdaterError.UpdateFailed
        ("/repo is not a git repository and is not empty")) := by
  exact C7_nonempty_non_git_fails sampleRepo ⟨true, ⟨false, ("a")⟩,
    [("stray.txt")]⟩ ("/repo") rfl rfl (by simp)

/-- C1 counterexample: the bound supplied to the TUF verifier is the commit
date alone.  In `sampleRepo` the date of commit `a` is 200 and the date of
the later commit `b` is 100, so an expiration of 200 accepted at `a` (not
below the bound 200 there) exceeds the bound 100 supplied at `b`: the bound
at `b` is lower than an expiration already seen, and differs from the spec's
`max` bound.  This falsifies the claim as stated. -/
theorem C1_counterexample :
    earliest_valid_expiration_time sampleRepo ⟨["a", "b"], some ("a"), 0⟩
      ("timestamp") = some 200 ∧
    earliest_valid_expiration_time sampleRepo ⟨["a", "b"], some ("a"), 1⟩
      ("timestamp") = some 100 ∧
    ¬ (200 : Int) < 200 ∧
    (100 : Int) < 200 ∧
    spec_expiration_bound 100 200 = 200 ∧
    earliest_valid_expiration_time sampleRepo ⟨["a", "b"], some ("a"), 1⟩
      ("timestamp") ≠ some (spec_expiration_bound 100 200) := by
  refine ⟨by rfl, by rfl, by decide, by decide, by decide, by decide⟩

/-- C1 amended: the bound supplied to the TUF verifier at the current commit
is exactly that commit's date, independent of the role name and of any
expiration seen at earlier commits; a role is treated as expired iff its
expiration is below the commit date alone. -/
theorem C1_bound_is_commit_date_only (v : ValidationRepo) (s : UpdaterState)
    (role role' c : String) (h : current_commit s = some c) :
    earliest_valid_expiration_time v s role =
      earliest_valid_expiration_time v s role' ∧
    earliest_valid_expiration_time v s role = some (v.get_commits_date c) := by
  exact ⟨rfl, by simp [earliest_valid_expiration_time, h]⟩

/-- Witness for the amended C1 at a concrete input. -/
theorem C1_witness :
    current_commit ⟨["a", "b"], some ("a"), 1⟩ = some ("b") ∧
    earliest_valid_expiration_time sampleRepo ⟨["a", "b"], some ("a"), 1⟩
      ("root") =
      earliest_valid_expiration_time sampleRepo ⟨["a", "b"], some ("a"), 1⟩
        ("snapshot") := by
  refine ⟨by rfl, ?_⟩
  exact (C1_bound_is_commit_date_only sampleRepo ⟨["a", "b"], some ("a"), 1⟩
    ("root") ("snapshot") ("b") (by rfl)).1

/-- C2: `_init_commits` performs no force-push detection of its own (the
source carries a TODO comment for it); with the user's head not an ancestor
of the remote branch, the failure comes from the spec-modelled git helper and
is `NotFastForward`, not `ForcePushDetected`, and no force mode exists in the
code to bypass it.  Concretely: remote history `a, b`, user head `x`. -/
theorem C2_no_force_push_detection :
    init_commits sampleRepo ⟨true, ("x")⟩ =
      .error UpdaterError.NotFastForward ∧
    UpdaterError.NotFastForward ≠ UpdaterError.ForcePushDetected := by
  refine ⟨?_, by decide⟩
  unfold init_commits all_commits_since_commit
  simp [sampleRepo]

/-- C6: evidence on a concrete filesystem.  The client's current and
previous metadata directories and the non-empty validation clone directory
exist; after `cleanup` the two metadata directories are gone but the
validation clone directory is still present, because the Windows command
`rmdir /S /Q` run through `os.system` does not remove a non-empty directory
on a POSIX system.  This falsifies the claim that no directory created by
the validation clone remains on disk after a run. -/
theorem C6_validation_clone_survives :
    cleanup [⟨"/c/m/current", false⟩, ⟨"/c/m/previous", false⟩,
             ⟨"/t/v", false⟩, ⟨"/t/v/objects", false⟩]
      ("/c/m/current") ("/c/m/previous") ("/t/v") =
      [⟨"/t/v", false⟩, ⟨"/t/v/objects", false⟩] ∧
    FsDir.mk ("/t/v") false ∈
      cleanup [⟨"/c/m/current", false⟩, ⟨"/c/m/previous", false⟩,
               ⟨"/t/v", false⟩, ⟨"/t/v/objects", false⟩]
        ("/c/m/current") ("/c/m/previous") ("/t/v") := by
  constructor
  · decide
  · decide
